import Mathlib

/-!
HyperNote: verification of the persistence and retrieval engine.

A shallow embedding of the HyperNote repository's core (`hypernote/fileio.py`,
`hypernote/note.py`, `hypernote/registry.py`, `hypernote/relations.py`,
`hypernote/utils.py`) together with theorems settling the specification
claims about it.

Python strings are modelled as lists of unicode scalar values (`List Char`),
Python ints as `Int` (arbitrary precision), Python byte buffers as lists of
naturals below 256.
-/

namespace HyperNote

/-- A Python `str`: a sequence of unicode code points. -/
abbrev Str := List Char

/-- A byte buffer (Python `bytes`/`bytearray`): each element is `< 256`. -/
abbrev Buf := List Nat

/-! ## note.py: `Pos`, `Link`, `LinkedText` -/

/-- `Pos = namedtuple('Pos', ('start', 'end'))` — a half-open span.
The Python field `end` is spelled `stop` here (`end` is a Lean keyword).
Offsets are `Int` since decoded spans are arbitrary signed ints. -/
structure Pos where
  start : Int
  stop : Int
deriving DecidableEq, Repr

/-- `Link = namedtuple('Link', ('pos', 'dest'))` — `dest` is a note UID. -/
structure Link where
  pos : Pos
  dest : Int
deriving DecidableEq, Repr

/-- `LinkedText`: text with inline hyperlink spans. -/
structure LinkedText where
  text : Str
  links : List Link
deriving DecidableEq, Repr

/-- `LinkedText(text)` — constructor: given text and no links. -/
def LinkedText.ofText (t : Str) : LinkedText := ⟨t, []⟩

/-- `LinkedText.link(pos, uid)`: append a link. -/
def LinkedText.addLink (lt : LinkedText) (p : Pos) (uid : Int) : LinkedText :=
  { lt with links := lt.links ++ [⟨p, uid⟩] }

/-- Shift a link's span by `off` (the loop body of `LinkedText.__add__`). -/
def shiftLink (off : Int) (l : Link) : Link :=
  ⟨⟨l.pos.start + off, l.pos.stop + off⟩, l.dest⟩

/-- `LinkedText.__add__`: concatenate text; copy the left links; append the
right links with both span offsets shifted by `len(self.text)`. -/
def ltAdd (a b : LinkedText) : LinkedText :=
  { text := a.text ++ b.text
  , links := a.links ++ b.links.map (shiftLink (a.text.length : Int)) }

/-! ## registry.py: the registry store

The registry code reads a note object only through `note.uid` and through
`str(getattr(note, attr))` for `attr in note.searchable` (`add`); `RNote`
records exactly those: the uid and the ordered list of searchable field
strings. -/

/-- `STEntry = namedtuple('STEntry', ('text', 'uid'))` — one search-table entry. -/
structure STEntry where
  text : Str
  uid : Int
deriving DecidableEq, Repr

/-- A note as seen by the registry store: its uid and the string values of
its `searchable` fields, in declared order. -/
structure RNote where
  uid : Int
  searchable : List Str
deriving DecidableEq, Repr

/-- The registry store's state: the `notes` dict (`uid -> note`, insertion
ordered) and the denormalized `search_table`. -/
structure Registry where
  notes : List (Int × RNote)
  table : List STEntry
deriving DecidableEq, Repr

/-- The initial (empty) registry state. -/
def Registry.init : Registry := ⟨[], []⟩

/-- Python `str.lower()` (modelled at the ASCII level of `Char.toLower`). -/
def pyLower (s : Str) : Str := s.map Char.toLower

/-- The match predicate of `search`: `e.text.lower() == query.lower()`. -/
def stMatch (q : Str) (e : STEntry) : Bool := pyLower e.text == pyLower q

/-- The accumulator loop of `search`: `for m in matches: if m.uid not in
matches_unique_uids: matches_unique_uids.append(m.uid)`. -/
def uniqueUids (acc : List Int) : List Int → List Int
  | [] => acc
  | u :: rest => if u ∈ acc then uniqueUids acc rest else uniqueUids (acc ++ [u]) rest

/-- `search(query)`: filter the search table by case-insensitive equality,
then deduplicate the uids keeping first occurrences. -/
def search (st : Registry) (q : Str) : List Int :=
  uniqueUids [] ((st.table.filter (stMatch q)).map STEntry.uid)

/-- First-seen deduplication, stated as a direct recursion: keep the head,
drop its later duplicates, recurse. -/
def firstDedup : List Int → List Int
  | [] => []
  | u :: rest => u :: firstDedup (rest.filter (fun v => decide ¬v = u))
termination_by l => l.length
decreasing_by
  simp only [List.length_cons]
  exact Nat.lt_succ_of_le (List.length_filter_le _ _)

theorem uniqueUids_eq (l : List Int) :
    ∀ acc, uniqueUids acc l = acc ++ firstDedup (l.filter (fun v => decide (v ∉ acc))) := by
  induction l with
  | nil => intro acc; simp [uniqueUids, firstDedup]
  | cons u rest ih =>
    intro acc
    by_cases hu : u ∈ acc
    · have hcons : (u :: rest).filter (fun v => decide (v ∉ acc))
          = rest.filter (fun v => decide (v ∉ acc)) := by
        simp [List.filter_cons, hu]
      rw [uniqueUids, if_pos hu, ih, hcons]
    · have hfilter : rest.filter (fun v => decide (v ∉ acc ++ [u]))
          = (rest.filter (fun v => decide (v ∉ acc))).filter (fun v => decide ¬v = u) := by
        rw [List.filter_filter]
        apply List.filter_congr
        intro v _
        by_cases h1 : v = u <;> by_cases h2 : v ∈ acc <;> simp [h1, h2]
      have hcons : (u :: rest).filter (fun v => decide (v ∉ acc))
          = u :: rest.filter (fun v => decide (v ∉ acc)) := by
        simp [List.filter_cons, hu]
      rw [uniqueUids, if_neg hu, ih, hfilter, hcons, firstDedup]
      simp

theorem firstDedup_mem : ∀ l : List Int, ∀ u, u ∈ firstDedup l ↔ u ∈ l := by
  intro l
  induction l using firstDedup.induct with
  | case1 => simp [firstDedup]
  | case2 v rest ih =>
    intro u
    rw [firstDedup]
    by_cases hu : u = v
    · simp [hu]
    · simp only [List.mem_cons, hu, false_or, ih]
      simp [List.mem_filter, hu]

theorem firstDedup_nodup : ∀ l : List Int, (firstDedup l).Nodup := by
  intro l
  induction l using firstDedup.induct with
  | case1 => simp [firstDedup]
  | case2 v rest ih =>
    rw [firstDedup]
    refine List.nodup_cons.mpr ⟨?_, ih⟩
    intro hv
    have := (firstDedup_mem _ v).mp hv
    simp [List.mem_filter] at this

theorem firstDedup_sublist : ∀ l : List Int, (firstDedup l).Sublist l := by
  intro l
  induction l using firstDedup.induct with
  | case1 => simp [firstDedup]
  | case2 v rest ih =>
    rw [firstDedup]
    exact List.Sublist.cons₂ v (ih.trans (List.filter_sublist _))

theorem stMatch_iff (q : Str) (e : STEntry) :
    stMatch q e = true ↔ pyLower e.text = pyLower q := by
  simp [stMatch]

/-- `search st q` as `firstDedup` of the matched uid list. -/
theorem search_eq_firstDedup (st : Registry) (q : Str) :
    search st q = firstDedup ((st.table.filter (stMatch q)).map STEntry.uid) := by
  rw [search, uniqueUids_eq]
  simp

theorem search_mem (st : Registry) (q : Str) (u : Int) :
    u ∈ search st q ↔ ∃ e ∈ st.table, pyLower e.text = pyLower q ∧ e.uid = u := by
  rw [search_eq_firstDedup, firstDedup_mem]
  simp only [List.mem_map, List.mem_filter, stMatch_iff]
  constructor
  · rintro ⟨e, ⟨he, hm⟩, rfl⟩
    exact ⟨e, he, hm, rfl⟩
  · rintro ⟨e, he, hm, rfl⟩
    exact ⟨e, ⟨he, hm⟩, rfl⟩

theorem search_eq_nil_iff (st : Registry) (q : Str) :
    search st q = [] ↔ ¬∃ e ∈ st.table, pyLower e.text = pyLower q := by
  rw [List.eq_nil_iff_forall_not_mem]
  constructor
  · rintro h ⟨e, he, hm⟩
    exact h e.uid ((search_mem st q e.uid).mpr ⟨e, he, hm, rfl⟩)
  · intro h u hu
    obtain ⟨e, he, hm, _⟩ := (search_mem st q u).mp hu
    exact h ⟨e, he, hm⟩

/-- C5: `search(query)` returns exactly the uids of index entries whose text
equals the query case-insensitively; the result has no duplicates, is the
first-seen deduplication of the matched uids (in table order), and is empty
when no entry matches. -/
theorem search_spec (st : Registry) (q : Str) :
    (∀ u, u ∈ search st q ↔ ∃ e ∈ st.table, pyLower e.text = pyLower q ∧ e.uid = u) ∧
    (search st q).Nodup ∧
    search st q = firstDedup ((st.table.filter (stMatch q)).map STEntry.uid) ∧
    ((¬∃ e ∈ st.table, pyLower e.text = pyLower q) → search st q = []) := by
  refine ⟨search_mem st q, ?_, search_eq_firstDedup st q, ?_⟩
  · rw [search_eq_firstDedup]; exact firstDedup_nodup _
  · intro h; exact (search_eq_nil_iff st q).mpr h

/-- Witness for `search_spec`: a query matching no entry of a concrete
table returns the empty list. -/
theorem search_spec_witness :
    search ⟨[], [⟨['a'], 5⟩, ⟨['b'], 6⟩]⟩ ['c'] = [] :=
  (search_spec ⟨[], [⟨['a'], 5⟩, ⟨['b'], 6⟩]⟩ ['c']).2.2.2 (by decide)

/-- The duplicate-searchable error message raised by `add`. -/
def dupMsg (q : Str) : Str :=
  "Another note already exists with a searchable property of '".toList ++ q ++ "'.".toList

/-- Python dict assignment `notes[uid] = note`: replace in place if the key
exists, else append (dicts preserve insertion order). -/
def dictInsert (k : Int) (v : RNote) (m : List (Int × RNote)) : List (Int × RNote) :=
  if m.any (fun p => p.1 == k) then m.map (fun p => if p.1 == k then (k, v) else p)
  else m ++ [(k, v)]

/-- The search-table entries registered for a note: one per searchable field. -/
def stEntries (n : RNote) : List STEntry := n.searchable.map (fun s => ⟨s, n.uid⟩)

/-- `add(note)`: check every searchable field against the current index
(first collision raises `RuntimeError`); only if none collides, register the
note in the uid map and append its index entries. -/
def add (st : Registry) (n : RNote) : Registry × Option Str :=
  match n.searchable.find? (fun q => !(search st q).isEmpty) with
  | some q => (st, some (dupMsg q))
  | none =>
    ({ notes := dictInsert n.uid n st.notes
     , table := st.table ++ stEntries n }, none)

/-- C2: insert atomicity and uniqueness: if any searchable field of the note
collides case-insensitively with an existing index entry, `add` fails with a
duplicate-field error and the notes map and search index are exactly
unchanged; otherwise `add` succeeds, inserting the note into the uid map and
appending exactly one index entry per searchable field. -/
theorem add_atomic_unique (st : Registry) (n : RNote) :
    ((∃ q ∈ n.searchable, ∃ e ∈ st.table, pyLower e.text = pyLower q) →
      (add st n).1 = st ∧ (add st n).2.isSome = true) ∧
    ((¬∃ q ∈ n.searchable, ∃ e ∈ st.table, pyLower e.text = pyLower q) →
      add st n = ({ notes := dictInsert n.uid n st.notes
                  , table := st.table ++ stEntries n }, none)) := by
  rcases hfind : n.searchable.find? (fun q => !(search st q).isEmpty) with _ | q
  · constructor
    · rintro ⟨q, hq, e, he, hm⟩
      have hnone := List.find?_eq_none.mp hfind q hq
      simp only [Bool.not_eq_true', Bool.not_eq_false, List.isEmpty_iff] at hnone
      exact absurd ⟨e, he, hm⟩ ((search_eq_nil_iff st q).mp hnone)
    · intro _
      simp [add, hfind]
  · constructor
    · intro _
      simp [add, hfind]
    · intro hno
      have hq : q ∈ n.searchable := List.mem_of_find?_eq_some hfind
      have hp := List.find?_some hfind
      simp only [Bool.not_eq_eq_eq_not, Bool.not_false, List.isEmpty_eq_false_iff_exists_mem]
        at hp
      have : search st q ≠ [] := by
        intro hnil
        rw [hnil] at hp
        simp at hp
      obtain ⟨e, he, hm⟩ := not_not.mp (mt (search_eq_nil_iff st q).mpr (by simpa using this))
      exact absurd ⟨q, hq, e, he, hm⟩ hno

/-- Witness for `add_atomic_unique`: a non-colliding insert into the empty
registry succeeds and registers one entry per searchable field. -/
theorem add_atomic_unique_witness :
    add Registry.init ⟨3, [['a'], ['b']]⟩ =
      ({ notes := dictInsert 3 ⟨3, [['a'], ['b']]⟩ Registry.init.notes
       , table := Registry.init.table ++ stEntries ⟨3, [['a'], ['b']]⟩ }, none) :=
  (add_atomic_unique Registry.init ⟨3, [['a'], ['b']]⟩).2 (by decide)

/-- C7: LinkedText concatenation law: `(A + B).text = A.text ++ B.text`;
every link of `A` appears unshifted in `A + B`; every link of `B` appears
with both span offsets shifted by `len(A.text)` and its destination
unchanged; in fact the combined link list is exactly `A`'s links followed
by `B`'s shifted links. -/
theorem ltAdd_concat_law (A B : LinkedText) :
    (ltAdd A B).text = A.text ++ B.text ∧
    (∀ l ∈ A.links, l ∈ (ltAdd A B).links) ∧
    (∀ l ∈ B.links,
      Link.mk ⟨l.pos.start + (A.text.length : Int), l.pos.stop + (A.text.length : Int)⟩ l.dest
        ∈ (ltAdd A B).links) ∧
    (ltAdd A B).links = A.links ++ B.links.map (shiftLink (A.text.length : Int)) := by
  refine ⟨rfl, ?_, ?_, rfl⟩
  · intro l hl
    exact List.mem_append_left _ hl
  · intro l hl
    exact List.mem_append_right _ (List.mem_map_of_mem _ hl)

/-- Witness for `ltAdd_concat_law` at a concrete pair of LinkedText values. -/
theorem ltAdd_concat_law_witness :
    (ltAdd ⟨['a'], [⟨⟨0, 1⟩, 7⟩]⟩ ⟨['b', 'c'], [⟨⟨0, 2⟩, 9⟩]⟩).text = ['a', 'b', 'c'] ∧
    Link.mk ⟨1, 3⟩ 9 ∈ (ltAdd ⟨['a'], [⟨⟨0, 1⟩, 7⟩]⟩ ⟨['b', 'c'], [⟨⟨0, 2⟩, 9⟩]⟩).links := by
  have h := ltAdd_concat_law ⟨['a'], [⟨⟨0, 1⟩, 7⟩]⟩ ⟨['b', 'c'], [⟨⟨0, 2⟩, 9⟩]⟩
  refine ⟨h.1, ?_⟩
  have h2 := h.2.2.1 ⟨⟨0, 2⟩, 9⟩ (by decide)
  simpa using h2

/-! ## fileio.py: the codec registry

Every encoded value is a one-byte typecode, a 4-byte little-endian signed
format version, and a type-specific payload.  Python `float` values and
`datetime` timestamps are kept as their 4-byte payload bit pattern
(a natural `< 2^32`): the binary64→binary32 value conversion performed by
`struct.pack('<f', ...)` and `datetime.timestamp()` is outside this
byte-level model. -/

/-- The three note variants ('T', 'A', 'D'). -/
inductive NoteTag where
  | tool
  | action
  | data
deriving DecidableEq, Repr

/-- A value handled by the codec registry.  `vNote` keeps the decoded
datascheme fields in declared order — every variant's datascheme has
exactly five attributes (`uid` plus four parts) — and
`decode_from_datascheme` assigns whatever objects `load_object` produced,
with no type check, so the five fields are arbitrary values. -/
inductive Value where
  | vInt : Int → Value
  | vFloat : Nat → Value
  | vStr : Str → Value
  | vTime : Nat → Value
  | vLinked : LinkedText → Value
  | vNote : NoteTag → Value → Value → Value → Value → Value → Value
deriving DecidableEq, Repr

/-- The 4 little-endian bytes of `n % 2^32`. -/
def le4 (n : Nat) : Buf := [n % 256, n / 256 % 256, n / 256 ^ 2 % 256, n / 256 ^ 3 % 256]

/-- `struct.pack('<i', i)`: two's-complement little-endian; raises
(`None` here) outside the signed 32-bit range. -/
def packInt32 (i : Int) : Option Buf :=
  if -2 ^ 31 ≤ i ∧ i < 2 ^ 31 then some (le4 (i % 2 ^ 32).toNat) else none

/-- Recombine 4 little-endian bytes. -/
def leVal (b0 b1 b2 b3 : Nat) : Nat := b0 + 256 * b1 + 256 ^ 2 * b2 + 256 ^ 3 * b3

/-- Interpret an unsigned 32-bit value as two's-complement signed
(`struct.unpack('<i', ...)`). -/
def toSigned32 (n : Nat) : Int := if n < 2 ^ 31 then (n : Int) else (n : Int) - 2 ^ 32

/-- UTF-8 encoding of one unicode scalar value. -/
def utf8EncodeChar (c : Char) : Buf :=
  let n := c.toNat
  if n < 0x80 then [n]
  else if n < 0x800 then [0xC0 + n / 0x40, 0x80 + n % 0x40]
  else if n < 0x10000 then [0xE0 + n / 0x1000, 0x80 + n / 0x40 % 0x40, 0x80 + n % 0x40]
  else [0xF0 + n / 0x40000, 0x80 + n / 0x1000 % 0x40, 0x80 + n / 0x40 % 0x40, 0x80 + n % 0x40]

/-- `bytes(s, 'utf8')`. -/
def utf8Encode (s : Str) : Buf := s.flatMap utf8EncodeChar

/-- A UTF-8 continuation byte. -/
def isCont (b : Nat) : Bool := 0x80 ≤ b && b < 0xC0

/-- Strict UTF-8 decoding of a whole buffer (`bytes.decode('utf8')`):
rejects stray continuation bytes, overlong forms, surrogates, and
out-of-range values, like CPython's strict error handler. -/
def utf8Decode : Buf → Option Str
  | [] => some []
  | b :: rest =>
    if b < 0x80 then do
      let s ← utf8Decode rest
      pure (Char.ofNat b :: s)
    else if b < 0xC2 then none
    else if b < 0xE0 then
      match rest with
      | b1 :: rest1 =>
        if isCont b1 then do
          let s ← utf8Decode rest1
          pure (Char.ofNat ((b - 0xC0) * 0x40 + (b1 - 0x80)) :: s)
        else none
      | _ => none
    else if b < 0xF0 then
      match rest with
      | b1 :: b2 :: rest2 =>
        if isCont b1 && isCont b2 then
          let n := (b - 0xE0) * 0x1000 + (b1 - 0x80) * 0x40 + (b2 - 0x80)
          if 0x800 ≤ n && (n < 0xD800 || 0xE000 ≤ n) then do
            let s ← utf8Decode rest2
            pure (Char.ofNat n :: s)
          else none
        else none
      | _ => none
    else if b < 0xF5 then
      match rest with
      | b1 :: b2 :: b3 :: rest3 =>
        if isCont b1 && isCont b2 && isCont b3 then
          let n := (b - 0xF0) * 0x40000 + (b1 - 0x80) * 0x1000 + (b2 - 0x80) * 0x40 + (b3 - 0x80)
          if 0x10000 ≤ n && n < 0x110000 then do
            let s ← utf8Decode rest3
            pure (Char.ofNat n :: s)
          else none
        else none
      | _ => none
    else none

/-- The tag + version header the `@encoder`/`@decoder` wrappers frame every
value with; every registered codec has version 1. -/
def hdr (tc : Char) : Buf := tc.toNat :: le4 1

/-- `e_i_1`: encode an int. -/
def e_i (i : Int) : Option Buf := do
  let p ← packInt32 i
  pure (hdr 'i' ++ p)

/-- `e_f_1`: encode a float (kept as its 32-bit payload pattern). -/
def e_f (bits : Nat) : Buf := hdr 'f' ++ le4 bits

/-- `e_s_1`: encode a string — the int-encoded `len(s)` (code-point count!)
followed by the UTF-8 bytes. -/
def e_s (s : Str) : Option Buf := do
  let lenb ← e_i (s.length : Int)
  pure (hdr 's' ++ (lenb ++ utf8Encode s))

/-- `e_t_1`: encode a timestamp as the underlying float. -/
def e_t (bits : Nat) : Buf := hdr 't' ++ e_f bits

/-- `e_L_1`: encode LinkedText — the string text, the int link count, then
per link the two span offsets and the destination uid, each int-encoded. -/
def e_L (lt : LinkedText) : Option Buf := do
  let tb ← e_s lt.text
  let cb ← e_i (lt.links.length : Int)
  let linkb ← lt.links.mapM (fun l => do
    let sb ← e_i l.pos.start
    let eb ← e_i l.pos.stop
    let db ← e_i l.dest
    pure (sb ++ eb ++ db))
  pure (hdr 'L' ++ (tb ++ cb ++ linkb.flatten))

/-- The typecode of each note variant's encoder/decoder. -/
def noteTagChar : NoteTag → Char
  | .tool => 'T'
  | .action => 'A'
  | .data => 'D'

/-- `get_encoder(type(v))(v)`: dispatch on the value's runtime type
(`e_T_1`/`e_A_1`/`e_D_1` concatenate the five datascheme fields'
encodings in declared order, via `encode_from_datascheme`). -/
def encVal : Value → Option Buf
  | .vInt i => e_i i
  | .vFloat bits => some (e_f bits)
  | .vStr s => e_s s
  | .vTime bits => some (e_t bits)
  | .vLinked lt => e_L lt
  | .vNote tag f0 f1 f2 f3 f4 => do
    let b0 ← encVal f0
    let b1 ← encVal f1
    let b2 ← encVal f2
    let b3 ← encVal f3
    let b4 ← encVal f4
    pure (hdr (noteTagChar tag) ++ (b0 ++ b1 ++ b2 ++ b3 ++ b4))

/-- Decode failure modes.  `unknownFormat` is the `KeyError` from
`get_decoder` when no decoder is registered for the `(typecode, version)`
pair; `malformed` covers the other byte-level exceptions
(`IndexError`/`struct.error`/`UnicodeDecodeError`/type errors);
`fuelOut` is the recursion budget of the embedding, never hit on buffers
whose nesting depth is below the supplied fuel. -/
inductive DecErr where
  | unknownFormat (tc : Char) (ver : Int)
  | malformed
  | fuelOut
deriving Repr

/-- `extract_typecode`: pop the first byte and read it as a character
(`chr(data[0])`; `IndexError` on an empty buffer). -/
def extract_typecode : Buf → Except DecErr (Char × Buf)
  | [] => .error .malformed
  | b :: rest => .ok (Char.ofNat b, rest)

/-- `extract_version`: pop four bytes and unpack little-endian signed
(`struct.error` if fewer than four bytes remain). -/
def extract_version : Buf → Except DecErr (Int × Buf)
  | b0 :: b1 :: b2 :: b3 :: rest => .ok (toSigned32 (leVal b0 b1 b2 b3), rest)
  | _ => .error .malformed

/-- The registered decoders (`d_s_1`, `d_i_1`, `d_f_1`, the timestamp
decoder — registered under typecode 't' — `d_L_1`, `d_T_1`, `d_A_1`,
`d_D_1`). -/
inductive DecId where
  | ds
  | di
  | df
  | dt
  | dL
  | dT
  | dA
  | dD
deriving DecidableEq, Repr

/-- The decoder dictionary `decoders[(typecode, version)]` built by the
`@decoder` wrapper, as an explicit association list. -/
def decoderTable : List ((Char × Int) × DecId) :=
  [(('s', 1), .ds), (('i', 1), .di), (('f', 1), .df), (('t', 1), .dt),
   (('L', 1), .dL), (('T', 1), .dT), (('A', 1), .dA), (('D', 1), .dD)]

/-- `get_decoder(typecode, version)`: exact dictionary lookup. -/
def get_decoder (tc : Char) (ver : Int) : Option DecId :=
  (decoderTable.find? (fun e => decide (e.1 = (tc, ver)))).map Prod.snd

/-- Outcome of one decode task: a decoded object (`load_object`) or the
link list built by the loop inside `d_L_1`. -/
inductive DecRes where
  | rv : Value → DecRes
  | rls : List Link → DecRes
deriving DecidableEq, Repr

/-- A pending decode task: `.obj` is a `load_object` call, `.runD id` is
the body of the registered decoder `id`, `.links cnt` is the remaining
iteration count of the link loop inside `d_L_1`. -/
inductive DecTask where
  | obj : DecTask
  | runD : DecId → DecTask
  | links : Nat → DecTask
deriving DecidableEq, Repr

/-- Expect a decoded object (not a link list). -/
def asVal : DecRes × Buf → Except DecErr (Value × Buf)
  | (.rv v, b) => .ok (v, b)
  | (.rls _, _) => .error .malformed

/-- The decoder, one structurally recursive function on fuel.  The
mutually recursive Python functions appear as task arms:
`.obj` is `load_object` (read typecode and version, look up the decoder,
delegate); `.runD id` is the body of `d_s_1`/`d_i_1`/`d_f_1`/the
timestamp decoder/`d_L_1`/`d_T_1`/`d_A_1`/`d_D_1`; `.links cnt` is the
link-reading loop inside `d_L_1`.  Fuel only bounds recursion depth
(see `DecErr.fuelOut`). -/
def dec : Nat → DecTask → Buf → Except DecErr (DecRes × Buf)
  | 0, _, _ => .error .fuelOut
  | n + 1, .obj, b => do
    let (tc, b) ← extract_typecode b
    let (ver, b) ← extract_version b
    match get_decoder tc ver with
    | none => .error (.unknownFormat tc ver)
    | some id => dec n (.runD id) b
  | _ + 1, .runD .di, b =>
    -- d_i_1: unpack 4 little-endian signed bytes
    match b with
    | b0 :: b1 :: b2 :: b3 :: rest => .ok (.rv (.vInt (toSigned32 (leVal b0 b1 b2 b3))), rest)
    | _ => .error .malformed
  | _ + 1, .runD .df, b =>
    -- d_f_1: 4 payload bytes, kept as the bit pattern
    match b with
    | b0 :: b1 :: b2 :: b3 :: rest => .ok (.rv (.vFloat (leVal b0 b1 b2 b3)), rest)
    | _ => .error .malformed
  | n + 1, .runD .ds, b => do
    -- d_s_1: length = load_object(b); ret = b[:length].decode('utf8'); del b[:length]
    let (lv, b) ← asVal (← dec n .obj b)
    match lv with
    | .vInt len =>
      if len < 0 then .error .malformed
      else
        match utf8Decode (b.take len.toNat) with
        | some s => .ok (.rv (.vStr s), b.drop len.toNat)
        | none => .error .malformed
    | _ => .error .malformed
  | n + 1, .runD .dt, b => do
    -- the timestamp decoder: ts = load_object(b); datetime.fromtimestamp(ts)
    let (fv, b) ← asVal (← dec n .obj b)
    match fv with
    | .vFloat bits => .ok (.rv (.vTime bits), b)
    | _ => .error .malformed
  | n + 1, .runD .dL, b => do
    -- d_L_1: text, then link count, then the link loop
    let (tv, b) ← asVal (← dec n .obj b)
    match tv with
    | .vStr text => do
      let (cv, b) ← asVal (← dec n .obj b)
      match cv with
      | .vInt cnt =>
        if cnt < 0 then .ok (.rv (.vLinked ⟨text, []⟩), b)
        else do
          let (r, b) ← dec n (.links cnt.toNat) b
          match r with
          | .rls links => .ok (.rv (.vLinked ⟨text, links⟩), b)
          | .rv _ => .error .malformed
      | _ => .error .malformed
    | _ => .error .malformed
  | n + 1, .runD .dT, b => do
    -- d_T_1 via decode_from_datascheme: five loads, assigned in order
    let (f0, b) ← asVal (← dec n .obj b)
    let (f1, b) ← asVal (← dec n .obj b)
    let (f2, b) ← asVal (← dec n .obj b)
    let (f3, b) ← asVal (← dec n .obj b)
    let (f4, b) ← asVal (← dec n .obj b)
    .ok (.rv (.vNote .tool f0 f1 f2 f3 f4), b)
  | n + 1, .runD .dA, b => do
    -- d_A_1 via decode_from_datascheme
    let (f0, b) ← asVal (← dec n .obj b)
    let (f1, b) ← asVal (← dec n .obj b)
    let (f2, b) ← asVal (← dec n .obj b)
    let (f3, b) ← asVal (← dec n .obj b)
    let (f4, b) ← asVal (← dec n .obj b)
    .ok (.rv (.vNote .action f0 f1 f2 f3 f4), b)
  | n + 1, .runD .dD, b => do
    -- d_D_1 via decode_from_datascheme
    let (f0, b) ← asVal (← dec n .obj b)
    let (f1, b) ← asVal (← dec n .obj b)
    let (f2, b) ← asVal (← dec n .obj b)
    let (f3, b) ← asVal (← dec n .obj b)
    let (f4, b) ← asVal (← dec n .obj b)
    .ok (.rv (.vNote .data f0 f1 f2 f3 f4), b)
  | _ + 1, .links 0, b => .ok (.rls [], b)
  | n + 1, .links (cnt + 1), b => do
    -- one iteration of the d_L_1 loop: start, end, uid (Python would
    -- accept non-int objects here; the model reports malformed, which is
    -- unreachable from well-formed encodings)
    let (sv, b) ← asVal (← dec n .obj b)
    let (ev, b) ← asVal (← dec n .obj b)
    let (uv, b) ← asVal (← dec n .obj b)
    match sv, ev, uv with
    | .vInt s, .vInt e, .vInt u => do
      let (r, b) ← dec n (.links cnt) b
      match r with
      | .rls rest => .ok (.rls (⟨⟨s, e⟩, u⟩ :: rest), b)
      | .rv _ => .error .malformed
    | _, _, _ => .error .malformed

/-- `load_object(b)`: decode the next object in the buffer, returning it
with the unconsumed remainder. -/
def load_object (n : Nat) (b : Buf) : Except DecErr (Value × Buf) := do
  asVal (← dec n .obj b)

/-- C4: versioned dispatch: for a buffer whose first byte is typecode `t`
and whose next four bytes are the little-endian signed version, decoding
delegates to the decoder registered for that exact `(typecode, version)`
pair, and fails with `UnknownFormat` — with no fallback to any other
version — when the pair is unregistered; a pair is registered exactly when
it appears in the decoder table. -/
theorem versioned_dispatch (n t b0 b1 b2 b3 : Nat) (rest : Buf) :
    (load_object (n + 1) (t :: b0 :: b1 :: b2 :: b3 :: rest)
      = match get_decoder (Char.ofNat t) (toSigned32 (leVal b0 b1 b2 b3)) with
        | none =>
          .error (.unknownFormat (Char.ofNat t) (toSigned32 (leVal b0 b1 b2 b3)))
        | some id => dec n (.runD id) rest >>= asVal) ∧
    (∀ tc ver id, get_decoder tc ver = some id ↔ ((tc, ver), id) ∈ decoderTable) := by
  constructor
  · have hstep : dec (n + 1) .obj (t :: b0 :: b1 :: b2 :: b3 :: rest)
        = match get_decoder (Char.ofNat t) (toSigned32 (leVal b0 b1 b2 b3)) with
          | none =>
            .error (.unknownFormat (Char.ofNat t) (toSigned32 (leVal b0 b1 b2 b3)))
          | some id => dec n (.runD id) rest := by rfl
    show dec (n + 1) .obj (t :: b0 :: b1 :: b2 :: b3 :: rest) >>= asVal = _
    rw [hstep]
    rcases h : get_decoder (Char.ofNat t) (toSigned32 (leVal b0 b1 b2 b3)) with _ | id
    · rfl
    · rfl
  · intro tc ver id
    constructor
    · intro h
      obtain ⟨e, hfind, hsnd⟩ := Option.map_eq_some'.mp h
      have hmem := List.mem_of_find?_eq_some hfind
      have hp := List.find?_some hfind
      simp only [decide_eq_true_eq] at hp
      have : e = ((tc, ver), id) := by
        rcases e with ⟨k, d⟩
        simp only at hp hsnd
        rw [hp, hsnd]
      rwa [this] at hmem
    · intro h
      simp only [decoderTable, List.mem_cons, List.not_mem_nil, or_false] at h
      rcases h with h | h | h | h | h | h | h | h <;>
        (rw [Prod.ext_iff] at h; rcases h with ⟨h1, rfl⟩; rw [Prod.ext_iff] at h1;
          rcases h1 with ⟨rfl, rfl⟩; rfl)

/-- Witness for `versioned_dispatch`: a buffer with the unregistered pair
(typecode 'x', version 1) fails with `UnknownFormat`. -/
theorem versioned_dispatch_witness :
    load_object 1 [120, 1, 0, 0, 0] = .error (.unknownFormat 'x' 1) :=
  (versioned_dispatch 0 120 1 0 0 0 []).1.trans (by rfl)

/-- C1 (code bug): the codec round-trip `decode(encode(v)) == v` fails for
non-ASCII strings.  `e_s_1` writes `len(s)` — the code-point count — as the
length prefix, while the payload is the UTF-8 byte sequence; `d_s_1` then
slices that many bytes.  Decoding the encoding of the two-character string
"éa" (code points [0xE9, 0x61], UTF-8 `C3 A9 61`) succeeds but yields the
one-character string "é" and leaves a stray byte `0x61` in the buffer, so
the decoded value differs from the original and every following record of
a concatenated buffer is desynchronized. -/
theorem string_roundTrip_fails :
    encVal (.vStr ['é', 'a'])
      = some [115, 1, 0, 0, 0, 105, 1, 0, 0, 0, 2, 0, 0, 0, 195, 169, 97] ∧
    load_object 20 [115, 1, 0, 0, 0, 105, 1, 0, 0, 0, 2, 0, 0, 0, 195, 169, 97]
      = .ok (.vStr ['é'], [97]) ∧
    Value.vStr ['é'] ≠ Value.vStr ['é', 'a'] ∧
    ([97] : Buf) ≠ [] :=
  ⟨rfl, by rfl, by decide, by decide⟩

/-! ## registry.py: `load`, `get`, `gen_uid`, and the store invariant -/

/-- `str(obj)` for the decoded objects that can sit in a searchable slot:
a decoded string is itself; `LinkedText.__str__` returns `self.text`.
Other objects (not producible by the program's own encoder in these
slots) are not rendered by the model. -/
def pyStr : Value → Option Str
  | .vStr s => some s
  | .vLinked lt => some lt.text
  | _ => none

/-- A decoded object viewed as an int. -/
def asIntV : Value → Option Int
  | .vInt i => some i
  | _ => none

/-- View a decoded object as what `add` reads of a note: `note.uid` and
the string values of the variant's `searchable` attributes —
`('name', 'cmd')` for ToolNote, `()` for ActionNote, `('name', 'path')`
for DataNote, at positions 1 and 2 of the respective dataschemes.
Decoded objects that are not notes, or with a non-int uid or an
unrenderable searchable slot, are rejected (Python would raise from
`add`'s `getattr`/indexing at the corresponding uses). -/
def rNoteOfValue : Value → Option RNote
  | .vNote tag f0 f1 f2 _ _ => do
    let uid ← asIntV f0
    match tag with
    | .tool => do
      let name ← pyStr f1
      let cmd ← pyStr f2
      pure ⟨uid, [name, cmd]⟩
    | .action => pure ⟨uid, []⟩
    | .data => do
      let name ← pyStr f1
      let path ← pyStr f2
      pure ⟨uid, [name, path]⟩
  | _ => none

/-- Failure modes of `load`: `open` raising FileNotFoundError, a decode
exception, a decoded object `add` cannot treat as a note, or the
duplicate-searchable RuntimeError from `add`. -/
inductive LoadErr where
  | fileNotFound
  | decodeFail (e : DecErr)
  | badNote
  | dupNote (msg : Str)
deriving Repr

/-- The record loop of `load`: `while data_all: note =
load_object(data_all); add(note)`.  Mutation happens through `add`, so a
mid-stream exception keeps the records added so far.  The `Nat` is loop
fuel (each iteration consumes at least the 5 header bytes, so
`data.length + 1` suffices). -/
def load_records : Nat → Buf → Registry → Registry × Option LoadErr
  | 0, _, st => (st, some (.decodeFail .fuelOut))
  | n + 1, data, st =>
    if data.isEmpty then (st, none)
    else
      match load_object (data.length + 1) data with
      | .error e => (st, some (.decodeFail e))
      | .ok (v, rest) =>
        match rNoteOfValue v with
        | none => (st, some .badNote)
        | some note =>
          match add st note with
          | (st1, none) => load_records n rest st1
          | (st1, some msg) => (st1, some (.dupNote msg))

/-- `load(path)`: `if path is None: return`; otherwise `open(path, 'rb')`
(raising FileNotFoundError when no file exists at the path — modelled by
`fs` returning `none`), then the record loop over the whole file. -/
def load (path : Option Str) (fs : Str → Option Buf) (st : Registry) :
    Registry × Option LoadErr :=
  match path with
  | none => (st, none)
  | some p =>
    match fs p with
    | none => (st, some .fileNotFound)
    | some data => load_records (data.length + 1) data st

/-- `get(uid)`: dictionary lookup (`KeyError`, i.e. `none`, when absent);
read-only. -/
def get (st : Registry) (uid : Int) : Option RNote :=
  (st.notes.find? (fun p => decide (p.1 = uid))).map Prod.snd

/-- `gen_uid()`: draw 31-bit values (the `draws` stream stands for
`random.getrandbits(31)`) until one is not a key of `notes`; read-only. -/
def gen_uid (draws : List Nat) (st : Registry) : Option Nat :=
  draws.find? (fun d => !(st.notes.any (fun p => decide (p.1 = (d : Int)))))

/-- C3 counterexample: loading from a path at which no file exists is an
error — `open(path, 'rb')` raises FileNotFoundError — not a successful
load of an empty registry. -/
theorem load_missing_file_is_error :
    load (some "reg".toList) (fun _ => none) Registry.init
      = (Registry.init, some .fileNotFound) ∧
    (load (some "reg".toList) (fun _ => none) Registry.init).2 ≠ none :=
  ⟨rfl, by intro h; exact Option.noConfusion h⟩

/-- C3 (amended): a `None` path is a no-op for `load` (not an error, no
state change); a path at which no file exists raises FileNotFound, with
the registry left unchanged; only an existing file is streamed, and it is
decoded record-by-record with `add` called for each decoded note. -/
theorem load_spec (fs : Str → Option Buf) (st : Registry) (p : Str) :
    load none fs st = (st, none) ∧
    (fs p = none → load (some p) fs st = (st, some .fileNotFound)) ∧
    (∀ data, fs p = some data →
      load (some p) fs st = load_records (data.length + 1) data st) ∧
    (∀ n data st0,
      load_records (n + 1) data st0 =
        if data.isEmpty then (st0, none)
        else
          match load_object (data.length + 1) data with
          | .error e => (st0, some (.decodeFail e))
          | .ok (v, rest) =>
            match rNoteOfValue v with
            | none => (st0, some .badNote)
            | some note =>
              match add st0 note with
              | (st1, none) => load_records n rest st1
              | (st1, some msg) => (st1, some (.dupNote msg))) := by
  refine ⟨rfl, ?_, ?_, ?_⟩
  · intro h
    simp [load, h]
  · intro data h
    simp [load, h]
  · intro n data st0
    rfl

/-- Witness for `load_spec`: the missing-file hypothesis discharged at a
concrete path and file system. -/
theorem load_spec_witness :
    load (some ['r']) (fun _ => none) Registry.init
      = (Registry.init, some .fileNotFound) :=
  (load_spec (fun _ => none) Registry.init ['r']).2.1 rfl

/-! ## registry.py: the search-index referential-integrity invariant -/

/-- One registry-store operation together with its external inputs: `load`
takes the path and the file system, `gen_uid` the stream of 31-bit random
draws. -/
inductive Op where
  | opLoad (path : Option Str) (fs : Str → Option Buf)
  | opAdd (n : RNote)
  | opGet (uid : Int)
  | opGenUid (draws : List Nat)
  | opSearch (q : Str)

/-- Apply one operation to the registry state.  `get`, `gen_uid` and
`search` are read-only; a failing `add` mutates nothing; a failing `load`
keeps exactly the records added before the exception. -/
def step (st : Registry) : Op → Registry
  | .opLoad path fs => (load path fs st).1
  | .opAdd n => (add st n).1
  | .opGet _ => st
  | .opGenUid _ => st
  | .opSearch _ => st

/-- Run a sequence of operations from the empty registry. -/
def run (ops : List Op) : Registry := ops.foldl step Registry.init

/-- Search-index referential integrity: every index entry's uid is a key
of the notes map. -/
def Inv (st : Registry) : Prop :=
  ∀ e ∈ st.table, ∃ v, (e.uid, v) ∈ st.notes

theorem dictInsert_self (k : Int) (v : RNote) (m : List (Int × RNote)) :
    (k, v) ∈ dictInsert k v m := by
  rw [dictInsert]
  by_cases h : m.any (fun p => p.1 == k)
  · rw [if_pos h]
    obtain ⟨p, hp, hpk⟩ := List.any_eq_true.mp h
    refine List.mem_map.mpr ⟨p, hp, ?_⟩
    rw [if_pos hpk]
  · rw [if_neg h]
    simp

theorem dictInsert_other (k : Int) (v : RNote) (m : List (Int × RNote))
    (p : Int × RNote) (hp : p ∈ m) (hne : ¬p.1 = k) : p ∈ dictInsert k v m := by
  rw [dictInsert]
  by_cases h : m.any (fun q => q.1 == k)
  · rw [if_pos h]
    refine List.mem_map.mpr ⟨p, hp, ?_⟩
    rw [if_neg (by simpa using hne)]
  · rw [if_neg h]
    exact List.mem_append_left _ hp

theorem dictInsert_key_mono (k : Int) (v : RNote) (m : List (Int × RNote))
    (u : Int) (h : ∃ w, (u, w) ∈ m) : ∃ w, (u, w) ∈ dictInsert k v m := by
  obtain ⟨w, hw⟩ := h
  by_cases hk : u = k
  · exact ⟨v, hk ▸ dictInsert_self k v m⟩
  · exact ⟨w, dictInsert_other k v m (u, w) hw hk⟩

theorem add_notes_key_mono (st : Registry) (n : RNote) (u : Int)
    (h : ∃ w, (u, w) ∈ st.notes) : ∃ w, (u, w) ∈ (add st n).1.notes := by
  rw [add]
  rcases hf : n.searchable.find? (fun q => !(search st q).isEmpty) with _ | q
  · exact dictInsert_key_mono n.uid n st.notes u h
  · exact h

theorem add_table_mono (st : Registry) (n : RNote) (e : STEntry)
    (he : e ∈ st.table) : e ∈ (add st n).1.table := by
  rw [add]
  rcases hf : n.searchable.find? (fun q => !(search st q).isEmpty) with _ | q
  · exact List.mem_append_left _ he
  · exact he

theorem add_inv (st : Registry) (n : RNote) (h : Inv st) : Inv (add st n).1 := by
  rw [add]
  rcases hf : n.searchable.find? (fun q => !(search st q).isEmpty) with _ | q
  · intro e he
    rcases List.mem_append.mp he with hold | hnew
    · exact dictInsert_key_mono n.uid n st.notes e.uid (h e hold)
    · obtain ⟨s, _, rfl⟩ := List.mem_map.mp hnew
      exact ⟨n, dictInsert_self n.uid n st.notes⟩
  · exact h

theorem load_records_inv :
    ∀ (fuel : Nat) (data : Buf) (st : Registry), Inv st →
      Inv (load_records fuel data st).1 := by
  intro fuel
  induction fuel with
  | zero => intro data st h; exact h
  | succ n ih =>
    intro data st h
    rw [load_records]
    by_cases hd : data.isEmpty
    · rw [if_pos hd]; exact h
    · rw [if_neg hd]
      rcases load_object (data.length + 1) data with e | ⟨v, rest⟩
      · exact h
      · dsimp only
        rcases rNoteOfValue v with _ | note
        · exact h
        · dsimp only
          rcases hadd : add st note with ⟨st1, msg⟩
          have hst1 : Inv st1 := by
            have := add_inv st note h
            rw [hadd] at this
            exact this
          rcases msg with _ | m
          · exact ih rest st1 hst1
          · exact hst1

theorem step_inv (st : Registry) (op : Op) (h : Inv st) : Inv (step st op) := by
  rcases op with ⟨path, fs⟩ | n | uid | draws | q
  · rcases path with _ | p
    · exact h
    · rw [step, load]
      rcases fs p with _ | data
      · exact h
      · exact load_records_inv (data.length + 1) data st h

  · exact add_inv st n h
  · exact h
  · exact h
  · exact h

theorem load_records_table_mono :
    ∀ (fuel : Nat) (data : Buf) (st : Registry) (e : STEntry),
      e ∈ st.table → e ∈ (load_records fuel data st).1.table := by
  intro fuel
  induction fuel with
  | zero => intro data st e he; exact he
  | succ n ih =>
    intro data st e he
    rw [load_records]
    by_cases hd : data.isEmpty
    · rw [if_pos hd]; exact he
    · rw [if_neg hd]
      rcases load_object (data.length + 1) data with err | ⟨v, rest⟩
      · exact he
      · dsimp only
        rcases rNoteOfValue v with _ | note
        · exact he
        · dsimp only
          rcases hadd : add st note with ⟨st1, msg⟩
          have hst1 : e ∈ st1.table := by
            have := add_table_mono st note e he
            rw [hadd] at this
            exact this
          rcases msg with _ | m
          · exact ih rest st1 e hst1
          · exact hst1

theorem load_records_key_mono :
    ∀ (fuel : Nat) (data : Buf) (st : Registry) (u : Int),
      (∃ w, (u, w) ∈ st.notes) → ∃ w, (u, w) ∈ (load_records fuel data st).1.notes := by
  intro fuel
  induction fuel with
  | zero => intro data st u h; exact h
  | succ n ih =>
    intro data st u h
    rw [load_records]
    by_cases hd : data.isEmpty
    · rw [if_pos hd]; exact h
    · rw [if_neg hd]
      rcases load_object (data.length + 1) data with err | ⟨v, rest⟩
      · exact h
      · dsimp only
        rcases rNoteOfValue v with _ | note
        · exact h
        · dsimp only
          rcases hadd : add st note with ⟨st1, msg⟩
          have hst1 : ∃ w, (u, w) ∈ st1.notes := by
            have := add_notes_key_mono st note u h
            rw [hadd] at this
            exact this
          rcases msg with _ | m
          · exact ih rest st1 u hst1
          · exact hst1

theorem step_table_mono (st : Registry) (op : Op) (e : STEntry)
    (he : e ∈ st.table) : e ∈ (step st op).table := by
  rcases op with ⟨path, fs⟩ | n | uid | draws | q
  · rcases path with _ | p
    · exact he
    · rw [step, load]
      rcases fs p with _ | data
      · exact he
      · exact load_records_table_mono (data.length + 1) data st e he
  · exact add_table_mono st n e he
  · exact he
  · exact he
  · exact he

theorem step_key_mono (st : Registry) (op : Op) (u : Int)
    (h : ∃ w, (u, w) ∈ st.notes) : ∃ w, (u, w) ∈ (step st op).notes := by
  rcases op with ⟨path, fs⟩ | n | uid | draws | q
  · rcases path with _ | p
    · exact h
    · rw [step, load]
      rcases fs p with _ | data
      · exact h
      · exact load_records_key_mono (data.length + 1) data st u h
  · exact add_notes_key_mono st n u h
  · exact h
  · exact h
  · exact h

/-- C10: search-index referential integrity: starting from the empty
registry, after any sequence of `load`, `add`, `get`, `gen_uid` and
`search` operations — including failing ones — every entry of the search
table carries a uid that is a key of the notes map; moreover no single
operation ever removes a notes-map key or a search-table entry. -/
theorem search_index_integrity :
    (∀ ops : List Op, Inv (run ops)) ∧
    (∀ (st : Registry) (op : Op),
      (∀ u, (∃ w, (u, w) ∈ st.notes) → ∃ w, (u, w) ∈ (step st op).notes) ∧
      (∀ e ∈ st.table, e ∈ (step st op).table)) := by
  constructor
  · intro ops
    have hgen : ∀ st, Inv st → Inv (ops.foldl step st) := by
      induction ops with
      | nil => intro st h; exact h
      | cons op rest ih =>
        intro st h
        exact ih (step st op) (step_inv st op h)
    exact hgen Registry.init (by intro e he; exact absurd he (List.not_mem_nil e))
  · intro st op
    exact ⟨fun u => step_key_mono st op u, fun e => step_table_mono st op e⟩

/-- Witness for `search_index_integrity`: the key-monotonicity conjunct
applied at a concrete state and operation. -/
theorem search_index_integrity_witness :
    ∃ w, ((5 : Int), w) ∈ (step ⟨[(5, ⟨5, []⟩)], []⟩ (.opAdd ⟨7, []⟩)).notes :=
  (search_index_integrity.2 ⟨[(5, ⟨5, []⟩)], []⟩ (.opAdd ⟨7, []⟩)).1 5
    ⟨⟨5, []⟩, by decide⟩

/-! ## relations.py: the relation store -/

/-- `Relation = namedtuple('Relation', ('uidA', 'uidB', 'typeA', 'typeB'))`;
the type tags are the small enumerated constants `RT_USED, ...`. -/
structure Relation where
  uidA : Int
  uidB : Int
  typeA : Nat
  typeB : Nat
deriving DecidableEq, Repr

/-- A query tuple of one or two uids. -/
inductive RQuery where
  | one (u : Int)
  | two (u v : Int)

/-- `is_match(query, rel)`: `query[0]` must name either side of the
relation; when the query has a second element it must then also name
either side. -/
def is_match (q : RQuery) (r : Relation) : Bool :=
  match q with
  | .one u => if u = r.uidA ∨ u = r.uidB then true else false
  | .two u v =>
    if u = r.uidA ∨ u = r.uidB then decide (v = r.uidA ∨ v = r.uidB) else false

/-- `get(query)`: generator scanning `reldb` in insertion order, yielding
the matching relations. -/
def relGet (q : RQuery) (db : List Relation) : List Relation :=
  db.filter (is_match q)

theorem is_match_one (u : Int) (r : Relation) :
    is_match (.one u) r = true ↔ (u = r.uidA ∨ u = r.uidB) := by
  rw [is_match]
  split <;> simp [*]

theorem is_match_two (u v : Int) (r : Relation) :
    is_match (.two u v) r = true ↔
      ((u = r.uidA ∨ u = r.uidB) ∧ (v = r.uidA ∨ v = r.uidB)) := by
  rw [is_match]
  split <;> simp [*]

/-- C9: relation query semantics: a one-uid query returns exactly the
stored relations naming that uid on either side; a two-uid query returns
exactly those in which each query uid names either side; both preserve
insertion order (the result is a sublist of the database). -/
theorem relation_query_spec (db : List Relation) (u v : Int) :
    (∀ r, r ∈ relGet (.one u) db ↔ r ∈ db ∧ (u = r.uidA ∨ u = r.uidB)) ∧
    (∀ r, r ∈ relGet (.two u v) db ↔
      r ∈ db ∧ (u = r.uidA ∨ u = r.uidB) ∧ (v = r.uidA ∨ v = r.uidB)) ∧
    (relGet (.one u) db).Sublist db ∧ (relGet (.two u v) db).Sublist db := by
  refine ⟨?_, ?_, List.filter_sublist _, List.filter_sublist _⟩
  · intro r
    rw [relGet, List.mem_filter, is_match_one]
  · intro r
    rw [relGet, List.mem_filter, is_match_two]

/-- Witness for `relation_query_spec`: a concrete relation is returned by
a one-uid query naming its B side. -/
theorem relation_query_spec_witness :
    Relation.mk 1 2 0 1 ∈ relGet (.one 2) [Relation.mk 1 2 0 1] :=
  ((relation_query_spec [Relation.mk 1 2 0 1] 2 0).1 (Relation.mk 1 2 0 1)).mpr
    (by decide)

/-! ## registry.py: the legacy fuzzy matcher `match`/`contigs` -/

/-- `contigs(s, minlen)`: all substrings `s[i : i+l]` with
`minlen ≤ l ≤ len(s) - i`, for each start position `i`, longest first
(`reversed(range(minlen, len(s)-c_spos+1))`). -/
def contigs (s : Str) (minlen : Nat) : List Str :=
  (List.range s.length).flatMap (fun i =>
    (List.range' minlen (s.length - i + 1 - minlen)).reverse.map
      (fun l => (s.drop i).take l))

/-- `len(regex.findall(escaped, source))` for a literal (escaped) pattern:
the number of non-overlapping occurrences, scanning left to right.  (An
empty pattern — unreachable from `match`, whose minimum contig length is
3 — matches at every position and once at the end, as in Python.) -/
def countOccs (pat : Str) : Str → Nat
  | [] => if pat.isEmpty then 1 else 0
  | c :: rest =>
    if (c :: rest).take pat.length = pat then
      1 + countOccs pat (rest.drop (pat.length - 1))
    else countOccs pat rest
termination_by s => s.length
decreasing_by
  · simp only [List.length_cons, List.length_drop]
    omega
  · simp only [List.length_cons]
    omega

/-- `match(query, source)`: total contig length found, normalized by the
source length (exact rational division; Python raises ZeroDivisionError on
an empty source, modelled as `none`). -/
def matchScore (query source : Str) : Option ℚ :=
  if source.length = 0 then none
  else
    some (((((contigs query (max 3 (source.length / 3))).map
      (fun c => countOccs c source * c.length)).sum : ℕ) : ℚ) / (source.length : ℚ))

theorem sum_map_range (f : Nat → Nat) :
    ∀ n, ((List.range n).map f).sum = ∑ i in Finset.range n, f i := by
  intro n
  induction n with
  | zero => simp
  | succ m ih =>
    rw [List.range_succ, List.map_append, List.sum_append, Finset.sum_range_succ, ih]
    simp

theorem sum_flatMap_range (g : Nat → List Nat) :
    ∀ n, ((List.range n).flatMap g).sum = ∑ i in Finset.range n, (g i).sum := by
  intro n
  induction n with
  | zero => simp
  | succ m ih =>
    rw [List.range_succ, List.flatMap_append, List.sum_append, Finset.sum_range_succ, ih]
    simp

theorem sum_map_range' (g : Nat → Nat) :
    ∀ k m, ((List.range' m k).map g).sum = ∑ l in Finset.Ico m (m + k), g l := by
  intro k
  induction k with
  | zero => simp
  | succ j ih =>
    intro m
    rw [List.range'_succ]
    simp only [List.map_cons, List.sum_cons, ih]
    rw [show m + (j + 1) = (m + 1) + j by omega]
    rw [Finset.sum_eq_sum_Ico_succ_bot (show m < (m + 1) + j by omega) g]

/-- The inner sum of the `contigs` loop at one start position. -/
theorem contig_row_sum (s : Str) (minlen : Nat) (f : Str → Nat) (i : Nat) :
    (((List.range' minlen (s.length - i + 1 - minlen)).reverse.map
        (fun l => (s.drop i).take l)).map f).sum
      = ∑ l in Finset.Icc minlen (s.length - i), f ((s.drop i).take l) := by
  rw [List.map_map, List.map_reverse, List.sum_reverse]
  simp only [Function.comp_def]
  rw [sum_map_range' (fun l => f ((s.drop i).take l))]
  by_cases h : minlen ≤ s.length - i
  · rw [show minlen + (s.length - i + 1 - minlen) = (s.length - i) + 1 by omega]
    rw [← Nat.Ico_succ_right]
  · rw [show s.length - i + 1 - minlen = 0 by omega]
    rw [Nat.add_zero, Finset.Ico_self]
    rw [Finset.Icc_eq_empty (by omega)]

/-- C8: fuzzy match score: for a non-empty source, `match(query, source)`
is the sum over all substrings of the query of length at least
`max(3, len(source) // 3)` — indexed by start position and length — of
(non-overlapping occurrence count in the source) × (substring length),
divided by `len(source)`. -/
theorem match_score_spec (query source : Str) (h : source ≠ []) :
    matchScore query source =
      some ((((∑ i in Finset.range query.length,
        ∑ l in Finset.Icc (max 3 (source.length / 3)) (query.length - i),
          countOccs ((query.drop i).take l) source * l : ℕ)) : ℚ)
        / (source.length : ℚ)) := by
  have hlen : source.length ≠ 0 := by
    simpa using fun hc => h (List.length_eq_zero.mp hc)
  rw [matchScore, if_neg hlen]
  have hN : ((contigs query (max 3 (source.length / 3))).map
      (fun c => countOccs c source * c.length)).sum
    = ∑ i in Finset.range query.length,
        ∑ l in Finset.Icc (max 3 (source.length / 3)) (query.length - i),
          countOccs ((query.drop i).take l) source * l := by
    rw [contigs, List.map_flatMap, sum_flatMap_range]
    apply Finset.sum_congr rfl
    intro i _
    rw [contig_row_sum query (max 3 (source.length / 3))
      (fun c => countOccs c source * c.length) i]
    apply Finset.sum_congr rfl
    intro l hl
    have hlb : max 3 (source.length / 3) ≤ l := (Finset.mem_Icc.mp hl).1
    have hub : l ≤ query.length - i := (Finset.mem_Icc.mp hl).2
    have htake : ((query.drop i).take l).length = l := by
      rw [List.length_take, List.length_drop]
      omega
    rw [htake]
  rw [hN]

/-- Witness for `match_score_spec`: the non-empty-source hypothesis
discharged at concrete strings. -/
theorem match_score_spec_witness :
    (['a', 'b', 'c'] : Str) ≠ [] ∧
    matchScore ['a', 'b', 'c'] ['a', 'b', 'c'] =
      some ((((∑ i in Finset.range (3 : Nat),
        ∑ l in Finset.Icc (max 3 (3 / 3)) (3 - i),
          countOccs (((['a', 'b', 'c'] : Str).drop i).take l) ['a', 'b', 'c'] * l : ℕ)) : ℚ)
        / ((3 : ℕ) : ℚ)) :=
  ⟨by decide, match_score_spec ['a', 'b', 'c'] ['a', 'b', 'c'] (by decide)⟩

/-! ## note.py and utils.py: note construction -/

/-- A generic Python dict update `m[k] = v`: replace in place if the key
exists, else append. -/
def dictUpd {α β : Type} [BEq α] (m : List (α × β)) (k : α) (v : β) : List (α × β) :=
  if m.any (fun p => p.1 == k) then m.map (fun p => if p.1 == k then (k, v) else p)
  else m ++ [(k, v)]

/-- The `vals` mapping (field name → raw string) handed to `Note.__init__`. -/
abbrev Vals := List (String × Str)

/-- Dict lookup in `vals`. -/
def lookupVal (vals : Vals) (k : String) : Option Str :=
  (vals.find? (fun p => p.1 == k)).map Prod.snd

/-- Dict indexing `vals[k]` (KeyError when absent). -/
def getKey (vals : Vals) (k : String) : Except Str Str :=
  match lookupVal vals k with
  | some v => .ok v
  | none => .error ("KeyError: ".toList ++ k.toList)

/-- The plain-omitted autofill sentinel (the empty string). -/
def AUTOFILL : Str := []

/-- The explicit confirm-autofill sentinel for unsafe fields. -/
def AUTOFILL_SAFETY : Str := ['@', '@']

/-- `CreationStatus`: extra info accompanying de novo note creation. -/
structure CreationStatus where
  insufficient_info : Bool := false
  autofill_failed : Bool := false
  autofill_unsure : Bool := false
  unsure_fields : List String := []
  autolinked_words : List (Str × Str) := []
deriving DecidableEq, Repr

/-- `CreationStatus.__bool__`: good iff neither fatal flag is set. -/
def CreationStatus.good (cs : CreationStatus) : Bool :=
  !cs.insufficient_info && !cs.autofill_failed

/-- A stored part value: a raw string, linked text, or a parsed timestamp
(kept as its opaque external rendering). -/
inductive FieldVal where
  | fvStr : Str → FieldVal
  | fvLinked : LinkedText → FieldVal
  | fvTime : Str → FieldVal
deriving DecidableEq, Repr

/-- A constructed note: uid, creation status, and the filled parts (empty
when construction rejected before `fill`). -/
structure PyNote where
  uid : Int
  cstatus : CreationStatus
  fields : List (String × FieldVal)
deriving DecidableEq, Repr

/-- External collaborators of note construction (spec §6): the version
autodetector, the current-timestamp source, `dateutil` timestamp parsing,
path normalization against the registry directory, and the rendering
`str(registry.get(uid))` recorded for autolink confirmation. -/
structure Ext where
  autoVer : Str → Option Str
  now : Str
  parseTS : Str → Option Str
  normPath : Str → Str
  renderUid : Int → Str

/-- The whitespace characters of `utils.find_word_boundaries`. -/
def pyWhitespace (c : Char) : Bool := c = ' ' || c = '\t' || c = '\n'

/-- The scan loop of `utils.find_word_boundaries`: position, the start of
the in-progress word (if inside one), remaining characters. -/
def fwb_loop (i : Nat) (cur : Option Nat) : Str → List (Nat × Nat)
  | [] =>
    match cur with
    | none => []
    | some s => [(s, i)]
  | c :: rest =>
    match cur with
    | none =>
      if pyWhitespace c then fwb_loop (i + 1) none rest
      else fwb_loop (i + 1) (some i) rest
    | some s =>
      if pyWhitespace c then (s, i) :: fwb_loop (i + 1) none rest
      else fwb_loop (i + 1) (some s) rest

/-- `utils.find_word_boundaries(source)`: the `[start, end)` spans of the
maximal whitespace-free runs. -/
def find_word_boundaries (source : Str) : List (Nat × Nat) := fwb_loop 0 none source

/-- `autolink_text(text, note)` / `Note.autolink`: build a LinkedText over
the text; for each whitespace-delimited word whose exact-match search is
non-empty, link the word's span to the first returned uid and record the
word with the destination note's rendering in
`cstatus.autolinked_words`. -/
def autolink_text (st : Registry) (ext : Ext) (text : Str) (cs : CreationStatus) :
    LinkedText × CreationStatus :=
  (find_word_boundaries text).foldl
    (fun acc wb =>
      let word := (text.drop wb.1).take (wb.2 - wb.1)
      match search st word with
      | [] => acc
      | uid :: _ =>
        let cs2 := { acc.2 with
          autolinked_words := dictUpd acc.2.autolinked_words word (ext.renderUid uid) }
        (acc.1.addLink ⟨(wb.1 : Int), (wb.2 : Int)⟩ uid, cs2))
    (⟨text, []⟩, cs)

/-- A part's value-production rule: raw text in, stored value and updated
status out; `.error` carries an uncaught Python exception. -/
abbrev Loader := Registry → Ext → Str → CreationStatus → Except Str (FieldVal × CreationStatus)

/-- `raw_string`: identity. -/
def raw_string : Loader := fun _ _ text cs => .ok (.fvStr text, cs)

/-- `parse_timestamp`: `dateutil.parser.parse`, raising RuntimeError on
failure. -/
def parse_timestamp : Loader := fun _ ext text cs =>
  match ext.parseTS text with
  | some t => .ok (.fvTime t, cs)
  | none => .error ("Failed to parse timestamp '".toList ++ text ++ "'!".toList)

/-- `normalize_path`: normalization against the registry directory
(filesystem behaviour abstracted into `Ext.normPath`). -/
def normalize_path : Loader := fun _ ext text cs => .ok (.fvStr (ext.normPath text), cs)

/-- The `autolink_text` rule as a loader. -/
def autolink_loader : Loader := fun st ext text cs =>
  let r := autolink_text st ext text cs
  .ok (.fvLinked r.1, r.2)

/-- The declared parts of each variant, in order. -/
def partsOf : NoteTag → List String
  | .tool => ["name", "cmd", "ver", "desc"]
  | .action => ["shellcmd", "toolcmd", "time", "desc"]
  | .data => ["name", "path", "src", "desc"]

/-- The `required` attributes of each variant. -/
def requiredOf : NoteTag → List String
  | .tool => ["cmd"]
  | .action => ["shellcmd"]
  | .data => ["path"]

/-- Each declared part's loader (the `Part` tables of
`ToolNote`/`ActionNote`/`DataNote`). -/
def loaderOf : NoteTag → String → Loader
  | .tool, "desc" => autolink_loader
  | .tool, _ => raw_string
  | .action, "time" => parse_timestamp
  | .action, _ => autolink_loader
  | .data, "name" => raw_string
  | .data, "path" => normalize_path
  | .data, _ => autolink_loader

/-- `'what ever'.split(' ')[0]`. -/
def firstSpaceWord (s : Str) : Str := s.takeWhile (fun c => c != ' ')

/-- `path.split('/')[-1]`. -/
def lastSlashComponent (s : Str) : Str := (s.reverse.takeWhile (fun c => c != '/')).reverse

/-- The variants' `autofill(vals)` methods: derive omitted values, edit
`vals` and the creation status in place; dict indexing of absent keys
raises KeyError (`.error`). -/
def autofill : NoteTag → Ext → Vals → CreationStatus → Except Str (Vals × CreationStatus)
  | .tool, ext, vals, cs => do
    let name ← getKey vals "name"
    let vals ←
      if name = AUTOFILL then do
        let cmd ← getKey vals "cmd"
        pure (dictUpd vals "name" cmd)
      else pure vals
    let ver ← getKey vals "ver"
    if ver = AUTOFILL_SAFETY then do
      let cmd ← getKey vals "cmd"
      match ext.autoVer cmd with
      | none => pure (vals, { cs with autofill_failed := true })
      | some v =>
        if v = [] then pure (vals, { cs with autofill_failed := true })
        else
          pure (dictUpd vals "ver" v,
            { cs with autofill_unsure := true
                    , unsure_fields := cs.unsure_fields ++ ["ver"] })
    else pure (vals, cs)
  | .action, ext, vals, cs => do
    let toolcmd ← getKey vals "toolcmd"
    let vals ←
      if toolcmd = AUTOFILL then do
        let shellcmd ← getKey vals "shellcmd"
        pure (dictUpd vals "toolcmd" (firstSpaceWord shellcmd))
      else pure vals
    let time ← getKey vals "time"
    let vals := if time = AUTOFILL then dictUpd vals "time" ext.now else vals
    pure (vals, cs)
  | .data, _, vals, cs => do
    let name ← getKey vals "name"
    let vals ←
      if name = AUTOFILL then do
        let path ← getKey vals "path"
        pure (dictUpd vals "name" (lastSlashComponent path))
      else pure vals
    pure (vals, cs)

/-- `Note.fill(vals)`: for each declared part, index `vals` and run the
part's loader, assigning the produced value. -/
def fill_parts (tag : NoteTag) (st : Registry) (ext : Ext) (vals : Vals) :
    List String → CreationStatus → Except Str (List (String × FieldVal) × CreationStatus)
  | [], cs => .ok ([], cs)
  | p :: rest, cs => do
    let v ← getKey vals p
    let (fv, cs1) ← loaderOf tag p st ext v cs
    let (fs, cs2) ← fill_parts tag st ext vals rest cs1
    .ok ((p, fv) :: fs, cs2)

/-- `Note.__init__(uid, vals)`: check every `required` attribute — on the
first one missing from `vals`, set `insufficient_info` and return with no
field filled — then run the variant's autofill, then fill every part. -/
def noteInit (tag : NoteTag) (uid : Int) (vals : Vals) (st : Registry) (ext : Ext) :
    Except Str PyNote :=
  if (requiredOf tag).any (fun a => (lookupVal vals a).isNone) then
    .ok ⟨uid, { insufficient_info := true }, []⟩
  else do
    let (vals1, cs1) ← autofill tag ext vals {}
    let (fields, cs2) ← fill_parts tag st ext vals1 (partsOf tag) cs1
    .ok ⟨uid, cs2, fields⟩

/-- C6: required-field rejection: for every note variant and every `vals`
omitting at least one required field, construction returns — synchronously,
to the immediate caller — a note whose CreationStatus has
`insufficient_info` set, the creation does not count as successful
(`CreationStatus.__bool__` is false), and no note field is filled from
`vals`. -/
theorem required_field_rejection (tag : NoteTag) (uid : Int) (vals : Vals)
    (st : Registry) (ext : Ext)
    (h : ∃ a ∈ requiredOf tag, lookupVal vals a = none) :
    ∃ note, noteInit tag uid vals st ext = .ok note ∧
      note.cstatus.insufficient_info = true ∧
      note.cstatus.good = false ∧
      note.fields = [] ∧ note.uid = uid := by
  obtain ⟨a, ha, hnone⟩ := h
  have hcond : (requiredOf tag).any (fun a => (lookupVal vals a).isNone) = true :=
    List.any_eq_true.mpr ⟨a, ha, by rw [hnone]; rfl⟩
  refine ⟨⟨uid, { insufficient_info := true }, []⟩, ?_, rfl, rfl, rfl, rfl⟩
  rw [noteInit, if_pos hcond]

/-- Witness for `required_field_rejection`: a ToolNote built from an empty
`vals` (required 'cmd' missing) at concrete external collaborators. -/
theorem required_field_rejection_witness :
    ∃ note, noteInit .tool 7 [] Registry.init
        ⟨fun _ => none, [], fun _ => none, id, fun _ => []⟩ = .ok note ∧
      note.cstatus.insufficient_info = true ∧
      note.cstatus.good = false ∧
      note.fields = [] ∧ note.uid = 7 :=
  required_field_rejection .tool 7 [] Registry.init
    ⟨fun _ => none, [], fun _ => none, id, fun _ => []⟩ (by decide)

end HyperNote
